import Mathlib

/-!
Verification of the 13F PDF converter (src/13F_PDF_Convertor.py).

The program classifies text lines extracted from a 13F PDF into table rows
(CUSIP, option flag, combined description, status), then splits the combined
description into issuer description and issue description using two ordered
keyword lists, and separately recovers the document's self-reported row count.

This file gives a shallow embedding of the line-level logic.  Strings are
modelled by Lean `String` (a wrapper around `List Char`); Python string
operations (slicing, `strip`, `in`, `rfind`, `[::-1]`, `replace`, `int`)
are modelled by explicit executable functions below.  A Python expression
that can raise an exception (an out-of-range index `el[i]`, `int` applied
to a non-numeric string) is modelled with `Option`, where `none` is the
raised exception.
-/

namespace ThirteenF

/-- Python whitespace for `str.strip` and the regex class `\s`
(ASCII fragment; the inputs handled by the tool are ASCII). -/
def isPySpace (c : Char) : Bool :=
  c = ' ' || c = '\t' || c = '\n' || c = '\r' || c = '\x0b' || c = '\x0c'

/-- Python regex `\d` (ASCII fragment). -/
def isPyDigit (c : Char) : Bool :=
  '0' ≤ c && c ≤ '9'

/-- Python regex `.`: any character except a newline. -/
def isDot (c : Char) : Bool :=
  c != '\n'

/-- Python `str.strip()` on a list of characters: remove leading and
trailing whitespace. -/
def stripList (l : List Char) : List Char :=
  ((l.dropWhile isPySpace).reverse.dropWhile isPySpace).reverse

/-- Python `str.strip()`. -/
def pyStrip (s : String) : String :=
  ⟨stripList s.data⟩

/-- Clamp a (possibly negative) Python slice bound to an index into a
string of length `n`: negative values count from the end, then the result
is clamped into `[0, n]`. -/
def pyIdx (n : Nat) (i : Int) : Nat :=
  let j := if i < 0 then i + n else i
  if j < 0 then 0 else min j.toNat n

/-- Python slice `s[a:]`. -/
def pySliceFrom (s : String) (a : Int) : String :=
  ⟨s.data.drop (pyIdx s.length a)⟩

/-- Python slice `s[:b]`. -/
def pySliceTo (s : String) (b : Int) : String :=
  ⟨s.data.take (pyIdx s.length b)⟩

/-- Python slice `s[a:b]`. -/
def pySlice (s : String) (a b : Int) : String :=
  ⟨(s.data.drop (pyIdx s.length a)).take (pyIdx s.length b - pyIdx s.length a)⟩

/-- Substring test on lists: does `sub` occur contiguously in `s`?
Executable counterpart of `sub <:+: s`. -/
def listContains (sub : List Char) : List Char → Bool
  | [] => sub.isEmpty
  | c :: rest => sub.isPrefixOf (c :: rest) || listContains sub rest

/-- Python `sub in s` for strings (substring containment). -/
def pySubstr (sub s : String) : Bool :=
  listContains sub.data s.data

/-- Python `s[::-1]`. -/
def pyReverse (s : String) : String :=
  ⟨s.data.reverse⟩

/-- Python `s.rfind(sub)`: the greatest index at which `sub` occurs in `s`
(as a prefix of the corresponding tail), or `-1` when `sub` does not occur. -/
def pyRfind (s sub : String) : Int :=
  match (List.range (s.length + 1)).reverse.find?
      (fun i => sub.data.isPrefixOf (s.data.drop i)) with
  | some i => (i : Int)
  | none => -1

/-- Python `list.insert(n, x)` for a non-negative `n` (clamped to the
length, so inserting past the end appends). -/
def pyInsert (row : List String) (n : Nat) (x : String) : List String :=
  row.take n ++ x :: row.drop n

/-- Python `s.replace(",", "")`: remove every comma. -/
def removeCommas (s : String) : String :=
  ⟨s.data.filter (fun ch => ch ≠ ',')⟩

/-- Python `int(s)` for base 10: surrounding whitespace is allowed, then an
optional sign, then a non-empty digit string; anything else raises
`ValueError`, modelled by `none`.  (Python additionally permits single
underscores between digits; no input in this development contains one.) -/
def pyInt (s : String) : Option Int :=
  let digitsVal : List Char → Option Int := fun ds =>
    if !ds.isEmpty && ds.all isPyDigit then
      some (ds.foldl (fun acc ch => acc * 10 + ((ch.toNat - '0'.toNat : Nat) : Int)) 0)
    else
      none
  match stripList s.data with
  | '+' :: rest => digitsVal rest
  | '-' :: rest => (digitsVal rest).map (fun n => -n)
  | rest => digitsVal rest

/-- Model of `re.search(pat + "$", el)` for a literal pattern `pat`,
returning the match span: `$` matches at the end of the string, or just
before a newline that ends the string. -/
def searchDollar (pat el : String) : Option (Nat × Nat) :=
  if (pat.data ++ ['\n']).isSuffixOf el.data then
    some (el.length - pat.length - 1, el.length - 1)
  else if pat.data.isSuffixOf el.data then
    some (el.length - pat.length, el.length)
  else
    none

/-!
The line classifier (source lines 104-186).

`re.match(r'.\d{1}....\s.{2}\s.', el)` anchors at the start of the line and
every piece of the pattern has a fixed width, so a match, when it exists, is
exactly the 11-character prefix of the line: the span is always `(0, 11)`.
-/

/-- Does `re.match(r'.\d{1}....\s.{2}\s.', el)` succeed?  Position 0 is any
non-newline character, position 1 a digit, positions 2-5 any characters,
position 6 whitespace, positions 7-8 any characters, position 9 whitespace,
position 10 any character. -/
def match_CUSIP (el : String) : Bool :=
  11 ≤ el.length &&
  isDot (el.data.getD 0 '\n') && isPyDigit (el.data.getD 1 ' ') &&
  isDot (el.data.getD 2 '\n') && isDot (el.data.getD 3 '\n') &&
  isDot (el.data.getD 4 '\n') && isDot (el.data.getD 5 '\n') &&
  isPySpace (el.data.getD 6 'x') && isDot (el.data.getD 7 '\n') &&
  isDot (el.data.getD 8 '\n') && isPySpace (el.data.getD 9 'x') &&
  isDot (el.data.getD 10 '\n')

/-- `add_CUSIP` (source lines 105-110): the substring of the line spanned by
the pattern match, i.e. `el[0:11]`. -/
def add_CUSIP (el : String) : String :=
  pySlice el 0 11

/-- `add_star` (source lines 114-120): `"*"` if `el[12]` (the character one
past the end of the CUSIP span) is `"*"`, else `""`; `el[12]` raises
`IndexError` (here `none`) when the line has at most 12 characters. -/
def add_star (el : String) : Option String :=
  match el.data[12]? with
  | some ch => some (if ch = '*' then "*" else "")
  | none => none

/-- `description_start_index_check_star` (source lines 124-128): the start
index of the combined description, `11 + 3` when `el[12]` is `"*"` and
`11 + 1` otherwise; the same `el[12]` access can raise `IndexError`. -/
def description_start_index_check_star (el : String) : Option Nat :=
  match el.data[12]? with
  | some ch => some (if ch = '*' then 11 + 3 else 11 + 1)
  | none => none

/-- `add_description` (source lines 132-149): the part of the line between
the CUSIP/star region and a trailing `ADDED`/`DELETED` status, stripped. -/
def add_description (el : String) : Option String :=
  match description_start_index_check_star el with
  | none => none
  | some dsi =>
    match searchDollar "ADDED" el, searchDollar "DELETED" el with
    | none, none => some (pyStrip (pySliceFrom el (dsi : Int)))
    | some sp1, _ => some (pyStrip (pySlice el (dsi : Int) (sp1.1 : Int)))
    | none, some sp2 => some (pyStrip (pySlice el (dsi : Int) (sp2.1 : Int)))

/-- `add_status` (source lines 152-169): the trailing `ADDED` or `DELETED`
token, or `""`. -/
def add_status (el : String) : String :=
  match searchDollar "ADDED" el, searchDollar "DELETED" el with
  | none, none => ""
  | some sp1, _ => pyStrip (pySlice el (sp1.1 : Int) (sp1.2 : Int))
  | none, some sp2 => pyStrip (pySlice el (sp2.1 : Int) (sp2.2 : Int))

/-- `categorize_col_contents` (source lines 174-186).  The outer `Option`
models a raised exception (`none` = the unguarded `el[12]` access failed);
the inner `Option` is the function's own result (`none` = the line does not
match the record pattern and is rejected). -/
def categorize_col_contents (el : String) : Option (Option (List String)) :=
  if match_CUSIP el then
    match add_star el, add_description el with
    | some st, some des => some (some [add_CUSIP el, st, des, add_status el])
    | _, _ => none
  else
    some none

/-!
The column splitter (source lines 197-266).
-/

/-- The ordered starter-word list of `starter_check` (source lines 199-203),
copied verbatim; the order encodes priority. -/
def starters : List String :=
  ["CALL", "PUT", "DEBT", "NAMEN", "*W", "ORDINARY", "RIGHT", "WBI",
   "NOTE", "USD ORD", "ORD SHS", "ORD SH", "USD MFC", "REG SHS", "SPONS ADR", "SPONS ADS", "SPON ADR",
   "SPON ADS", "SPONS ADS", "SPONSORD ADS", "SPONSORED", "SPONDS", "PHYSCL", "PRTNRSP", "PARTNERSHP",
   "SHS CL", "COM CL", "COM CLASS", " ORD", "COM STK", "COM UNIT", "CL A", "USD ORD", "ORD SH", "SHS CLASS",
   "UNIT COM", "ADR", "ADS", "COM", "UNIT", "ORD", "SHS", "CLASS", "S&P"]

/-- `starter_check` (source lines 197-212): return the first starter word
`t` in list order such that `" " + t` occurs in the combined description;
the Python return value `[True, t]` / `[False, None]` is modelled as a
pair. -/
def starter_check (des : String) : Bool × Option String :=
  match starters.find? (fun starter => pySubstr (" " ++ starter) des) with
  | some starter => (true, some starter)
  | none => (false, none)

/-- The ordered end-word list of `end_check` (source lines 218-220), copied
verbatim; the order encodes priority. -/
def ends : List String :=
  ["CORP N", "CORP NEW", "INC N", "INC NEW", "PLC", "LTD", "INC", "CORP", "HLDGS I", "HLDGS II", "HLDGS III",
   "HLDGS", "FD TR", "ETF TR", "BRH", "L P", " LP", "S A", "TR I", "TR II", "TR III", "FD I", "FD II",
   "FD III", "ETF TR", "FD T", "TRADED FD", "FD I", "FD II", "FD III", "TR", "FDS", "FD", "TRUST"]

/-- The per-token test of `end_check` (source line 229): the reversed token
surrounded by spaces occurs in the reversed description. -/
def end_token_hit (tok des : String) : Bool :=
  pySubstr (" " ++ pyReverse tok ++ " ") (pyReverse des)

/-- `end_check` (source lines 216-231): return the first end word in list
order whose reversed form, surrounded by spaces, occurs in the reversed
description; the word is returned stripped. -/
def end_check (des : String) : Bool × Option String :=
  match ends.find? (fun tok => end_token_hit tok des) with
  | some tok => (true, some (pyStrip tok))
  | none => (false, none)

/-- The note inserted when neither scan matches (source line 264). -/
def fallbackNote : String :=
  "See description column for issue type"

/-- The body of the `split_table` loop (source lines 237-265) for one row.
A row arriving here is a 4-element list `[CUSIP, star, description,
status]`; the Python code mutates it in place into a 5-element list. -/
def split_row (row : List String) : List String :=
  let des := row.getD 2 ""
  if (starter_check des).1 then
    let starter := (starter_check des).2.getD ""
    let starter_start_index := pyRfind des starter
    let issue := pyStrip (pySliceFrom des starter_start_index)
    let description := pyStrip (pySliceTo des (starter_start_index - 1))
    (pyInsert row 3 issue).set 2 description
  else if (end_check des).1 then
    let tok := (end_check des).2.getD ""
    let end_start_index := pyRfind des (tok ++ " ")
    let issue := pyStrip (pySliceFrom des (end_start_index + (tok.length : Int)))
    let description := pyStrip (pySliceTo des (end_start_index + (tok.length : Int)))
    (pyInsert row 3 issue).set 2 description
  else
    pyInsert row 3 fallbackNote

/-- `split_table` (source lines 235-266). -/
def split_table (all_table : List (List String)) : List (List String) :=
  all_table.map split_row

/-- `find_count` (source lines 274-277): on a line containing
`"Total Count"`, parse the last 6 characters with commas removed as an
integer (`none` models the `ValueError` raised by `int` when that segment
is not numeric); otherwise return `[False, 0]`. -/
def find_count (el : String) : Option (Bool × Int) :=
  if pySubstr "Total Count" el then
    (pyInt (removeCommas (pySliceFrom el ((el.length : Int) - 6)))).map (fun n => (true, n))
  else
    some (false, 0)

/-- One iteration of the count accumulation of the `__main__` loop (source
lines 335-336): `if find_count(el)[0]: count = find_count(el)[1]`; a raised
`ValueError` (`none`) aborts the run. -/
def count_step (acc : Option Int) (el : String) : Option Int :=
  match acc with
  | none => none
  | some c =>
    match find_count el with
    | none => none
    | some r => some (if r.1 then r.2 else c)

/-- The count accumulation of the `__main__` loop (source lines 330-336):
`count` starts at 0 and is overwritten by the value of every line on which
`find_count` reports success; `none` models a raised `ValueError`. -/
def count_loop (lines : List String) : Option Int :=
  lines.foldl count_step (some 0)

/-- The per-line pipeline of the `__main__` loop followed by `split_table`:
classify a line, and split the combined description of the resulting row. -/
def classify_then_split (el : String) : Option (Option (List String)) :=
  (categorize_col_contents el).map (Option.map split_row)

/-! ### Helper lemmas about the Python-string model -/

theorem string_data_length (s : String) : s.data.length = s.length := rfl

theorem listContains_iff (sub s : List Char) : listContains sub s = true ↔ sub <:+: s := by
  induction s with
  | nil =>
    simp only [listContains, List.isEmpty_iff, List.infix_nil]
  | cons c rest ih =>
    simp only [listContains, Bool.or_eq_true, List.isPrefixOf_iff_prefix, ih,
      List.infix_cons_iff]

theorem pySubstr_iff (sub s : String) : pySubstr sub s = true ↔ sub.data <:+: s.data :=
  listContains_iff sub.data s.data

theorem stripList_eq_nil_iff (l : List Char) :
    stripList l = [] ↔ ∀ c ∈ l, isPySpace c = true := by
  unfold stripList
  constructor
  · intro h c hc
    have h1 : (l.dropWhile isPySpace).reverse.dropWhile isPySpace = [] := by
      have := congrArg List.reverse h
      simpa using this
    have h2 : ∀ x ∈ l.dropWhile isPySpace, isPySpace x = true := by
      intro x hx
      exact List.dropWhile_eq_nil_iff.mp h1 x (List.mem_reverse.mpr hx)
    have h3 : l = l.takeWhile isPySpace ++ l.dropWhile isPySpace :=
      (List.takeWhile_append_dropWhile isPySpace l).symm
    rw [h3] at hc
    rcases List.mem_append.mp hc with h4 | h4
    · exact List.mem_takeWhile_imp h4
    · exact h2 c h4
  · intro h
    have h1 : l.dropWhile isPySpace = [] :=
      List.dropWhile_eq_nil_iff.mpr h
    simp [h1]

theorem stripList_ne_nil (l : List Char) (c : Char) (hc : c ∈ l)
    (hns : isPySpace c = false) : stripList l ≠ [] := by
  intro h
  have := (stripList_eq_nil_iff l).mp h c hc
  rw [hns] at this
  exact Bool.false_ne_true this

theorem stripList_self_no_trailing (l : List Char) (h : stripList l = l)
    (k : Nat) (hk : l.drop k ≠ []) : ∃ c ∈ l.drop k, isPySpace c = false := by
  by_contra hcon
  push_neg at hcon
  have hsp : ∀ c ∈ l.drop k, isPySpace c = true := by
    intro c hc
    have := hcon c hc
    simpa using this
  obtain ⟨c0, t0, hrev⟩ : ∃ c0 t0, (l.drop k).reverse = c0 :: t0 := by
    rcases hr : (l.drop k).reverse with _ | ⟨a, b⟩
    · exact absurd (by simpa using congrArg List.reverse hr) hk
    · exact ⟨a, b, rfl⟩
  have hc0 : isPySpace c0 = true := by
    apply hsp
    have : c0 ∈ (l.drop k).reverse := by rw [hrev]; exact List.mem_cons_self c0 t0
    exact List.mem_reverse.mp this
  -- `stripList l = l` forces both `dropWhile` passes to remove nothing.
  have hlen : (stripList l).length = l.length := by rw [h]
  have hd1le : (l.dropWhile isPySpace).length ≤ l.length :=
    (List.dropWhile_suffix isPySpace).length_le
  have hd2le :
      ((l.dropWhile isPySpace).reverse.dropWhile isPySpace).length ≤
        (l.dropWhile isPySpace).length := by
    have := (List.dropWhile_suffix (l := (l.dropWhile isPySpace).reverse) isPySpace).length_le
    simpa using this
  have hlen2 : ((l.dropWhile isPySpace).reverse.dropWhile isPySpace).length = l.length := by
    unfold stripList at hlen
    simpa using hlen
  have hd1 : l.dropWhile isPySpace = l :=
    (List.dropWhile_suffix isPySpace).eq_of_length (by omega)
  have hd2 : l.reverse.dropWhile isPySpace = l.reverse := by
    apply (List.dropWhile_suffix isPySpace).eq_of_length
    rw [hd1] at hlen2
    simpa using hlen2
  -- but the head of `l.reverse` is the whitespace `c0`, so the second pass drops it
  have hrl : l.reverse = c0 :: (t0 ++ (l.take k).reverse) := by
    have h0 : l = l.take k ++ l.drop k := (List.take_append_drop k l).symm
    calc l.reverse = (l.take k ++ l.drop k).reverse := by rw [← h0]
    _ = (l.drop k).reverse ++ (l.take k).reverse := by rw [List.reverse_append]
    _ = c0 :: (t0 ++ (l.take k).reverse) := by rw [hrev]; simp
  rw [hrl, List.dropWhile_cons_of_pos hc0] at hd2
  have := congrArg List.length hd2
  have hle := (List.dropWhile_suffix (l := t0 ++ (l.take k).reverse) isPySpace).length_le
  simp only [List.length_cons] at this
  omega

theorem pyStrip_ne_empty (s : String) (c : Char) (hc : c ∈ s.data)
    (hns : isPySpace c = false) : pyStrip s ≠ "" := by
  intro h
  have : stripList s.data = [] := congrArg String.data h
  exact stripList_ne_nil s.data c hc hns this

theorem range_rev_find_ge (p : Nat → Bool) :
    ∀ n i, i ≤ n → p i = true →
      ∃ j, (List.range (n + 1)).reverse.find? p = some j ∧ i ≤ j ∧ j ≤ n ∧ p j = true := by
  intro n
  induction n with
  | zero =>
    intro i hi hp
    have h0 : i = 0 := Nat.le_zero.mp hi
    subst h0
    refine ⟨0, ?_, Nat.le_refl 0, Nat.le_refl 0, hp⟩
    have : (List.range 1).reverse = [0] := by decide
    rw [this]
    exact List.find?_cons_of_pos _ hp
  | succ n ih =>
    intro i hi hp
    have hr : (List.range (n + 2)).reverse = (n + 1) :: (List.range (n + 1)).reverse := by
      rw [List.range_succ, List.reverse_append]
      simp
    by_cases hp1 : p (n + 1) = true
    · exact ⟨n + 1, by rw [hr]; exact List.find?_cons_of_pos _ hp1, by omega,
        Nat.le_refl _, hp1⟩
    · have hi' : i ≤ n := by
        have : i ≠ n + 1 := fun he => hp1 (he ▸ hp)
        omega
      obtain ⟨j, hj, hij, hjn, hpj⟩ := ih i hi' hp
      refine ⟨j, ?_, hij, by omega, hpj⟩
      rw [hr, List.find?_cons_of_neg _ hp1]
      exact hj

theorem pyRfind_found (s sub : String) (i : Nat) (hi : i ≤ s.length)
    (hp : sub.data.isPrefixOf (s.data.drop i) = true) :
    ∃ j : Nat, pyRfind s sub = (j : Int) ∧ i ≤ j ∧ j ≤ s.length ∧
      sub.data.isPrefixOf (s.data.drop j) = true := by
  obtain ⟨j, hj, hij, hjn, hpj⟩ :=
    range_rev_find_ge (fun k => sub.data.isPrefixOf (s.data.drop k)) s.length i hi hp
  refine ⟨j, ?_, hij, hjn, hpj⟩
  unfold pyRfind
  rw [hj]

theorem infix_to_drop (sub s : List Char) (h : sub <:+: s) :
    ∃ i, i + sub.length ≤ s.length ∧ sub.isPrefixOf (s.drop i) = true := by
  rcases h with ⟨pre, post, rfl⟩
  refine ⟨pre.length, by simp [List.length_append], ?_⟩
  have hdrop : (pre ++ sub ++ post).drop pre.length = sub ++ post := by
    rw [List.append_assoc, List.drop_left]
  rw [hdrop]
  exact List.isPrefixOf_iff_prefix.mpr (List.prefix_append sub post)

/-! ### Helper lemmas about the classifier -/

theorem match_CUSIP_fields (el : String) (h : match_CUSIP el = true) :
    11 ≤ el.length ∧ isPyDigit (el.data.getD 1 ' ') = true ∧
      isPySpace (el.data.getD 6 'x') = true ∧ isPySpace (el.data.getD 9 'x') = true := by
  unfold match_CUSIP at h
  simp only [Bool.and_eq_true, decide_eq_true_eq] at h
  obtain ⟨⟨⟨⟨⟨⟨⟨⟨⟨⟨⟨h1, h2⟩, h3⟩, h4⟩, h5⟩, h6⟩, h7⟩, h8⟩, h9⟩, h10⟩, h11⟩, h12⟩ := h
  exact ⟨h1, h3, h8, h11⟩

theorem categorize_eq (el : String) (h : match_CUSIP el = true) (hlen : 13 ≤ el.length) :
    ∃ star des, add_star el = some star ∧ add_description el = some des ∧
      categorize_col_contents el = some (some [add_CUSIP el, star, des, add_status el]) := by
  have hlt : 12 < el.data.length := by rw [string_data_length]; omega
  obtain ⟨ch, hch⟩ : ∃ ch, el.data[12]? = some ch := by
    rw [List.getElem?_eq_getElem hlt]
    exact ⟨_, rfl⟩
  have hstar : add_star el = some (if ch = '*' then "*" else "") := by
    unfold add_star
    rw [hch]
  have hdsi : description_start_index_check_star el =
      some (if ch = '*' then 11 + 3 else 11 + 1) := by
    unfold description_start_index_check_star
    rw [hch]
  obtain ⟨des, hdes⟩ : ∃ des, add_description el = some des := by
    unfold add_description
    rw [hdsi]
    rcases searchDollar "ADDED" el with _ | sp1
    · rcases searchDollar "DELETED" el with _ | sp2
      · exact ⟨_, rfl⟩
      · exact ⟨_, rfl⟩
    · exact ⟨_, rfl⟩
  refine ⟨_, des, hstar, hdes, ?_⟩
  unfold categorize_col_contents
  rw [hstar, hdes]
  simp [h]

theorem categorize_crash (el : String) (h : match_CUSIP el = true)
    (hlen : el.length < 13) : categorize_col_contents el = none := by
  have h12 : el.data[12]? = none := by
    apply List.getElem?_eq_none
    rw [string_data_length]
    omega
  have hstar : add_star el = none := by
    unfold add_star
    rw [h12]
  unfold categorize_col_contents
  rw [hstar]
  simp [h]

/-! ### Helper lemmas about the splitter -/

theorem starter_check_found (d t : String) (h : starter_check d = (true, some t)) :
    t ∈ starters ∧ pySubstr (" " ++ t) d = true := by
  unfold starter_check at h
  rcases hf : starters.find? (fun starter => pySubstr (" " ++ starter) d) with _ | t0
  · rw [hf] at h
    simp at h
  · rw [hf] at h
    simp only [Prod.mk.injEq, Option.some.injEq, true_and] at h
    subst h
    refine ⟨List.mem_of_find?_eq_some hf, ?_⟩
    have hp := List.find?_some hf
    simpa using hp

theorem split_row_starter (c s d st t : String)
    (h : starter_check d = (true, some t)) :
    ∃ j : Nat, 1 ≤ j ∧ j ≤ d.length ∧ t.data.isPrefixOf (d.data.drop j) = true ∧
      split_row [c, s, d, st] =
        [c, s, pyStrip (pySliceTo d ((j : Int) - 1)), pyStrip (pySliceFrom d (j : Int)), st] := by
  obtain ⟨hmem, hsub⟩ := starter_check_found d t h
  have hinf : (" " ++ t).data <:+: d.data := (pySubstr_iff _ _).mp hsub
  obtain ⟨i, hile, hipre⟩ := infix_to_drop _ _ hinf
  have hdata : (" " ++ t).data = ' ' :: t.data := rfl
  have hpre2 : t.data.isPrefixOf (d.data.drop (i + 1)) = true := by
    have h1 : (' ' :: t.data) <+: d.data.drop i :=
      List.isPrefixOf_iff_prefix.mp (by rw [← hdata]; exact hipre)
    obtain ⟨rest, hrest⟩ := h1
    apply List.isPrefixOf_iff_prefix.mpr
    refine ⟨rest, ?_⟩
    have hdd : d.data.drop (i + 1) = (d.data.drop i).drop 1 := by
      rw [List.drop_drop]
    rw [hdd, ← hrest]
    simp
  have hi1 : i + 1 ≤ d.length := by
    rw [hdata] at hile
    simp only [List.length_cons] at hile
    have hdd := string_data_length d
    omega
  obtain ⟨j, hjfind, hij, hjle, hjpre⟩ := pyRfind_found d t (i + 1) hi1 hpre2
  refine ⟨j, by omega, hjle, hjpre, ?_⟩
  unfold split_row
  simp only [List.getD_eq_getElem?_getD, List.getElem?_cons_zero, List.getElem?_cons_succ,
    Option.getD_some]
  rw [h]
  simp only [Option.getD_some]
  rw [hjfind]
  simp [pyInsert]

theorem end_check_found (d tk : String) (h : end_check d = (true, some tk)) :
    ∃ tok0, tok0 ∈ ends ∧ tk = pyStrip tok0 ∧ end_token_hit tok0 d = true := by
  unfold end_check at h
  rcases hf : ends.find? (fun tok => end_token_hit tok d) with _ | t0
  · rw [hf] at h
    simp at h
  · rw [hf] at h
    simp only [Prod.mk.injEq, Option.some.injEq, true_and] at h
    refine ⟨t0, List.mem_of_find?_eq_some hf, h.symm, ?_⟩
    have hp := List.find?_some hf
    simpa using hp

theorem end_token_hit_iff (tok des : String) :
    end_token_hit tok des = true ↔ (" " ++ tok ++ " ").data <:+: des.data := by
  unfold end_token_hit
  rw [pySubstr_iff]
  have h1 : (" " ++ pyReverse tok ++ " ").data = (" " ++ tok ++ " ").data.reverse := by
    simp [pyReverse, List.reverse_append]
  have h2 : (pyReverse des).data = des.data.reverse := rfl
  rw [h1, h2]
  exact List.reverse_infix

/-- Every end word, once stripped and followed by a space, still occurs in
the space-surrounded form of the original end word (no end word has
trailing whitespace). -/
theorem ends_strip_space :
    ends.all (fun tok0 => pySubstr (pyStrip tok0 ++ " ") (" " ++ tok0 ++ " ")) = true := by
  decide

theorem split_row_end (c s d st tk : String)
    (hsc : (starter_check d).1 = false)
    (h : end_check d = (true, some tk)) :
    ∃ j : Nat, j + tk.length + 1 ≤ d.length ∧
      (tk ++ " ").data.isPrefixOf (d.data.drop j) = true ∧
      split_row [c, s, d, st] =
        [c, s, pyStrip (pySliceTo d ((j : Int) + (tk.length : Int))),
          pyStrip (pySliceFrom d ((j : Int) + (tk.length : Int))), st] := by
  obtain ⟨tok0, hmem, htk, hhit⟩ := end_check_found d tk h
  have hinf1 : (" " ++ tok0 ++ " ").data <:+: d.data := (end_token_hit_iff tok0 d).mp hhit
  have hinf0 : (tk ++ " ").data <:+: (" " ++ tok0 ++ " ").data := by
    have hall := List.all_eq_true.mp ends_strip_space tok0 hmem
    rw [htk]
    exact (pySubstr_iff _ _).mp hall
  have hinf : (tk ++ " ").data <:+: d.data := hinf0.trans hinf1
  obtain ⟨i, hile, hipre⟩ := infix_to_drop _ _ hinf
  have hi1 : i ≤ d.length := by
    have hdd := string_data_length d
    omega
  obtain ⟨j, hjfind, hij, hjle, hjpre⟩ := pyRfind_found d (tk ++ " ") i hi1 hipre
  have hlenpre : j + tk.length + 1 ≤ d.length := by
    have hple := List.IsPrefix.length_le (List.isPrefixOf_iff_prefix.mp hjpre)
    have h1 : (tk ++ " ").data.length = tk.data.length + 1 := by
      rw [String.data_append, List.length_append]
      rfl
    have h2 : (d.data.drop j).length = d.data.length - j := by simp
    have hdd := string_data_length d
    have htt := string_data_length tk
    omega
  refine ⟨j, hlenpre, hjpre, ?_⟩
  unfold split_row
  simp only [List.getD_eq_getElem?_getD, List.getElem?_cons_zero, List.getElem?_cons_succ,
    Option.getD_some]
  rw [hsc, h]
  simp only [Option.getD_some, Bool.false_eq_true, if_false]
  rw [hjfind]
  simp [pyInsert]

theorem split_row_fallback (c s d st : String)
    (hsc : (starter_check d).1 = false) (hec : (end_check d).1 = false) :
    split_row [c, s, d, st] = [c, s, d, fallbackNote, st] := by
  unfold split_row
  simp only [List.getD_eq_getElem?_getD, List.getElem?_cons_zero, List.getElem?_cons_succ,
    Option.getD_some]
  rw [hsc, hec]
  simp [pyInsert]

/-! ### Slice arithmetic and inversion helpers -/

theorem pyIdx_ofNat (n k : Nat) : pyIdx n (k : Int) = min k n := by
  unfold pyIdx
  have h1 : ¬ ((k : Int) < 0) := by omega
  simp [h1]

theorem pySliceFrom_data_le (s : String) (k : Nat) (hk : k ≤ s.length) :
    (pySliceFrom s (k : Int)).data = s.data.drop k := by
  unfold pySliceFrom
  rw [pyIdx_ofNat]
  rw [Nat.min_eq_left hk]

theorem pySliceTo_data_le (s : String) (k : Nat) (hk : k ≤ s.length) :
    (pySliceTo s (k : Int)).data = s.data.take k := by
  unfold pySliceTo
  rw [pyIdx_ofNat]
  rw [Nat.min_eq_left hk]

theorem starter_check_true (d : String) (hb : (starter_check d).1 = true) :
    ∃ t, starter_check d = (true, some t) := by
  unfold starter_check at hb ⊢
  rcases hf : starters.find? (fun starter => pySubstr (" " ++ starter) d) with _ | t0
  · rw [hf] at hb
    simp at hb
  · exact ⟨t0, rfl⟩

theorem end_check_true (d : String) (hb : (end_check d).1 = true) :
    ∃ tk, end_check d = (true, some tk) := by
  unfold end_check at hb ⊢
  rcases hf : ends.find? (fun tok => end_token_hit tok d) with _ | t0
  · rw [hf] at hb
    simp at hb
  · exact ⟨pyStrip t0, rfl⟩

/-- Every starter word contains a non-whitespace character. -/
theorem starters_nonspace :
    starters.all (fun t => t.data.any (fun ch => !isPySpace ch)) = true := by
  decide

/-! ### Claims -/

/-- C1 (counterexample): the pipeline does NOT produce the claimed record for
the input line `A12345678 * APPLE INC COM DELETED`: the record pattern
requires whitespace at offsets 6 and 9, so the line is rejected by
`categorize_col_contents` (result `some none` = no exception, line dropped)
and never reaches `split_table`. -/
theorem claim_C1_counterexample :
    categorize_col_contents "A12345678 * APPLE INC COM DELETED" = some none := by
  decide

/-- C1 (amended): the line `A12345678 * APPLE INC COM DELETED` is rejected by
the classifier; for the line `A12345 67 8 * APPLE INC COM DELETED`, whose
9-character CUSIP is written in the spaced 6-2-1 layout the pattern expects,
the classification-plus-split pipeline produces exactly the record
CUSIP=`A12345 67 8`, Option=`*`, IssuerDescription=`APPLE INC`,
IssueDescription=`COM`, Status=`DELETED`. -/
theorem claim_C1_amended_pipeline :
    classify_then_split "A12345 67 8 * APPLE INC COM DELETED" =
      some (some ["A12345 67 8", "*", "APPLE INC", "COM", "DELETED"]) := by
  decide

/-- C2 (counterexample): on the accepted line `B98765 43 2 INTEL CORP COM
ADDED` the CUSIP field placed in the row is the matched span, but that span
is 11 characters long, not a 9-character identifier. -/
theorem claim_C2_counterexample :
    categorize_col_contents "B98765 43 2 INTEL CORP COM ADDED" =
      some (some ["B98765 43 2", "", "INTEL CORP COM", "ADDED"]) ∧
    ¬ ("B98765 43 2".length = 9) := by
  constructor
  · decide
  · decide

/-- C2 (amended): for every line accepted as a record, the CUSIP field of the
row equals exactly the substring of the line spanned by the record-prefix
pattern — the 11-character prefix `el[0:11]` (the 9-character CUSIP printed
with its two internal separators), an 11-character string rather than a bare
9-character token. -/
theorem claim_C2_amended_span (el : String) (r : List String)
    (h : categorize_col_contents el = some (some r)) :
    r.getD 0 "" = pySliceTo el 11 ∧ (r.getD 0 "").length = 11 := by
  by_cases hm : match_CUSIP el = true
  · unfold categorize_col_contents at h
    rw [if_pos hm] at h
    rcases hs : add_star el with _ | star
    · rw [hs] at h
      rcases add_description el with _ | des <;> simp at h
    · rcases hd : add_description el with _ | des
      · rw [hs, hd] at h
        simp at h
      · rw [hs, hd] at h
        simp only [Option.some.injEq] at h
        have hr : r = [add_CUSIP el, star, des, add_status el] := h.symm
        subst hr
        have h11 : 11 ≤ el.length := (match_CUSIP_fields el hm).1
        have hcused : (add_CUSIP el).data = el.data.take 11 := by
          unfold add_CUSIP pySlice
          have e0 : (0 : Int) = ((0 : Nat) : Int) := rfl
          have e11 : (11 : Int) = ((11 : Nat) : Int) := rfl
          rw [e0, e11, pyIdx_ofNat, pyIdx_ofNat]
          have h0 : min 0 el.length = 0 := Nat.min_eq_left (Nat.zero_le _)
          have h1 : min 11 el.length = 11 := Nat.min_eq_left h11
          rw [h0, h1]
          simp
        constructor
        · show add_CUSIP el = pySliceTo el 11
          have hto : (pySliceTo el (11 : Int)).data = el.data.take 11 := by
            have := pySliceTo_data_le el 11 h11
            simpa using this
          exact String.ext (by rw [hcused, hto])
        · show (add_CUSIP el).length = 11
          rw [← string_data_length, hcused]
          rw [List.length_take]
          rw [string_data_length]
          omega
  · unfold categorize_col_contents at h
    rw [if_neg hm] at h
    simp at h

/-- C3: for every row processed by `split_table` whose combined description
was whitespace-trimmed (as classification guarantees), the resulting
IssueDescription (index 3) is non-empty; and when neither the starter scan
nor the end scan matches it is exactly the fallback note while the
IssuerDescription (index 2) keeps the full combined string unchanged. -/
theorem claim_C3_issue_nonempty (c s d st : String) (h : pyStrip d = d) :
    (split_row [c, s, d, st]).getD 3 "" ≠ "" ∧
      ((starter_check d).1 = false → (end_check d).1 = false →
        (split_row [c, s, d, st]).getD 3 "" = fallbackNote ∧
          (split_row [c, s, d, st]).getD 2 "" = d) := by
  by_cases hb1 : (starter_check d).1 = true
  · obtain ⟨t, ht⟩ := starter_check_true d hb1
    obtain ⟨j, hj1, hjle, hjpre, hsplit⟩ := split_row_starter c s d st t ht
    rw [hsplit]
    refine ⟨?_, ?_⟩
    · show pyStrip (pySliceFrom d (j : Int)) ≠ ""
      have hmem : t ∈ starters := (starter_check_found d t ht).1
      have hall := List.all_eq_true.mp starters_nonspace t hmem
      obtain ⟨c0, hc0mem, hc0f⟩ : ∃ x ∈ t.data, isPySpace x = false := by
        simpa using hall
      have hsubl : t.data <+: d.data.drop j := List.isPrefixOf_iff_prefix.mp hjpre
      have hc0in : c0 ∈ d.data.drop j := hsubl.sublist.subset hc0mem
      have hdata : (pySliceFrom d (j : Int)).data = d.data.drop j :=
        pySliceFrom_data_le d j hjle
      exact pyStrip_ne_empty _ c0 (by rw [hdata]; exact hc0in) hc0f
    · intro hf1 _
      rw [hf1] at hb1
      exact absurd hb1 (by decide)
  · have hb1' : (starter_check d).1 = false := by simpa using hb1
    by_cases hb2 : (end_check d).1 = true
    · obtain ⟨tk, htk⟩ := end_check_true d hb2
      obtain ⟨j, hjb, hjpre, hsplit⟩ := split_row_end c s d st tk hb1' htk
      rw [hsplit]
      refine ⟨?_, ?_⟩
      · show pyStrip (pySliceFrom d ((j : Int) + (tk.length : Int))) ≠ ""
        have hcast : (j : Int) + (tk.length : Int) = ((j + tk.length : Nat) : Int) := by
          push_cast
          ring
        rw [hcast]
        have hkle : j + tk.length ≤ d.length := by omega
        have hdata : (pySliceFrom d ((j + tk.length : Nat) : Int)).data =
            d.data.drop (j + tk.length) := pySliceFrom_data_le d (j + tk.length) hkle
        have hne : d.data.drop (j + tk.length) ≠ [] := by
          intro hnil
          have hlen := congrArg List.length hnil
          simp only [List.length_drop, List.length_nil] at hlen
          have hdd := string_data_length d
          omega
        have hd : stripList d.data = d.data := congrArg String.data h
        obtain ⟨c0, hc0mem, hc0⟩ :=
          stripList_self_no_trailing d.data hd (j + tk.length) hne
        exact pyStrip_ne_empty _ c0 (by rw [hdata]; exact hc0mem) hc0
      · intro _ hf2
        rw [hf2] at hb2
        exact absurd hb2 (by decide)
    · have hb2' : (end_check d).1 = false := by simpa using hb2
      rw [split_row_fallback c s d st hb1' hb2']
      refine ⟨?_, fun _ _ => ⟨rfl, rfl⟩⟩
      show fallbackNote ≠ ""
      decide

theorem find?_first_segment_ne {α : Type} (p : α → Bool) (x y : α)
    (hx : p x = true) (hxy : x ≠ y) :
    ∀ l1 l2, y ∉ l1 → (l1 ++ x :: l2).find? p ≠ some y := by
  intro l1
  induction l1 with
  | nil =>
    intro l2 _
    rw [List.nil_append, List.find?_cons_of_pos _ hx]
    intro he
    exact hxy (Option.some.inj he)
  | cons a as ih =>
    intro l2 hy
    by_cases hpa : p a = true
    · rw [List.cons_append, List.find?_cons_of_pos _ hpa]
      intro he
      have ha : a = y := Option.some.inj he
      exact hy (ha ▸ List.mem_cons_self a as)
    · rw [List.cons_append, List.find?_cons_of_neg _ hpa]
      exact ih l2 (fun hmem => hy (List.mem_cons_of_mem a hmem))

/-- C4 (counterexample): the combined string `ACME CALL SPONS ADR` contains
both `ADR` and `SPONS ADR` (space-preceded), yet the starter scan picks
`CALL` — an earlier token in the list — so the split point is not chosen by
`SPONS ADR`. -/
theorem claim_C4_counterexample :
    pySubstr " SPONS ADR" "ACME CALL SPONS ADR" = true ∧
      pySubstr " ADR" "ACME CALL SPONS ADR" = true ∧
      starter_check "ACME CALL SPONS ADR" = (true, some "CALL") := by
  refine ⟨by decide, by decide, by decide⟩

/-- C4 (amended): the starter scan selects the FIRST token in the curated
list order whose space-preceded occurrence appears anywhere in the combined
string (every earlier-listed token has no space-preceded occurrence);
consequently, on a string with a space-preceded `SPONS ADR` occurrence the
scan never selects `ADR` (which comes later in the list), and it selects
`SPONS ADR` itself exactly when none of the 14 tokens listed before
`SPONS ADR` occurs space-preceded; an earlier token such as `CALL` can
still win over both. -/
theorem claim_C4_amended_first_match :
    (∀ d t, starter_check d = (true, some t) →
        pySubstr (" " ++ t) d = true ∧
          ∃ l1 l2, starters = l1 ++ t :: l2 ∧
            ∀ u ∈ l1, pySubstr (" " ++ u) d = false) ∧
      (∀ d, pySubstr " SPONS ADR" d = true → (starter_check d).2 ≠ some "ADR") ∧
      (∀ d, pySubstr " SPONS ADR" d = true →
        (∀ u ∈ starters.take 14, pySubstr (" " ++ u) d = false) →
        starter_check d = (true, some "SPONS ADR")) := by
  have hsplit : starters = starters.take 14 ++ "SPONS ADR" :: starters.drop 15 := by
    decide
  have hlit : (" " ++ "SPONS ADR" : String) = " SPONS ADR" := by decide
  refine ⟨?_, ?_, ?_⟩
  · intro d t h
    unfold starter_check at h
    rcases hf : starters.find? (fun starter => pySubstr (" " ++ starter) d) with _ | t0
    · rw [hf] at h
      simp at h
    · rw [hf] at h
      simp only [Prod.mk.injEq, Option.some.injEq, true_and] at h
      subst h
      obtain ⟨hp, as, bs, hdec, hfail⟩ := List.find?_eq_some.mp hf
      refine ⟨by simpa using hp, as, bs, hdec, ?_⟩
      intro u hu
      have := hfail u hu
      simpa using this
  · intro d hsub
    have hx : pySubstr (" " ++ "SPONS ADR") d = true := by rw [hlit]; exact hsub
    have hne := find?_first_segment_ne
      (fun starter => pySubstr (" " ++ starter) d) "SPONS ADR" "ADR"
      (by simpa using hx) (by decide)
      (starters.take 14) (starters.drop 15) (by decide)
    unfold starter_check
    rcases hf : starters.find? (fun starter => pySubstr (" " ++ starter) d) with _ | t0
    · simp
    · simp only [ne_eq, Option.some.injEq]
      intro he
      subst he
      rw [hsplit] at hf
      exact hne hf
  · intro d hsub hearly
    have hx : pySubstr (" " ++ "SPONS ADR") d = true := by rw [hlit]; exact hsub
    unfold starter_check
    rw [hsplit, List.find?_append]
    have h1 : (starters.take 14).find? (fun starter => pySubstr (" " ++ starter) d)
        = none := by
      apply List.find?_eq_none.mpr
      intro u hu
      simp [hearly u hu]
    rw [h1, Option.none_or, List.find?_cons_of_pos _ (by simpa using hx)]

/-- C5: the end scan's per-token test (the reversed token surrounded by
spaces, searched in the reversed string) succeeds exactly when the token
occurs with a space on each side in the original string — a whole-word
match, never a match inside a longer word.  Concretely, `CENTRAL PRINTING`
contains the substring `TR` (inside a longer word) but the end word `TR`
does not match and the end scan reports no match at all. -/
theorem claim_C5_whole_word :
    (∀ des tok, end_token_hit tok des = true ↔
        pySubstr (" " ++ tok ++ " ") des = true) ∧
      pySubstr "TR" "CENTRAL PRINTING" = true ∧
      end_token_hit "TR" "CENTRAL PRINTING" = false ∧
      end_check "CENTRAL PRINTING" = (false, none) := by
  refine ⟨?_, by decide, by decide, by decide⟩
  intro des tok
  rw [end_token_hit_iff]
  exact (pySubstr_iff _ _).symm

/-- C6 (counterexample): for the row with combined description
`FOO ADR BADR`, the starter scan splits at the last occurrence of `ADR`
(inside `BADR`), consuming the non-whitespace character `B`; rejoining
IssuerDescription and IssueDescription with a single whitespace does not
reconstruct the combined description. -/
theorem claim_C6_counterexample :
    split_row ["C", "", "FOO ADR BADR", ""] = ["C", "", "FOO ADR", "ADR", ""] ∧
      ¬ ("FOO ADR" ++ " " ++ "ADR" = "FOO ADR BADR") := by
  refine ⟨by decide, by decide⟩

/-- C6 (amended): when the starter scan splits a row, the combined
description decomposes as `L ++ ch ++ R` where `ch` is the single character
consumed at the split point — not necessarily a whitespace — and the row's
IssuerDescription and IssueDescription are the stripped `L` and `R`; when
the end scan splits, it decomposes as `L ++ R` with `R` beginning with the
separating space.  The single-whitespace reconstruction of the original
claim holds only when the consumed character is a space and the stripping
removes nothing else. -/
theorem claim_C6_amended_decomposition (c s d st : String) :
    ((starter_check d).1 = true →
      ∃ L R : String, ∃ ch : Char,
        d = L ++ String.singleton ch ++ R ∧
          (split_row [c, s, d, st]).getD 2 "" = pyStrip L ∧
          (split_row [c, s, d, st]).getD 3 "" = pyStrip R) ∧
    ((starter_check d).1 = false → (end_check d).1 = true →
      ∃ L R : String,
        d = L ++ R ∧ R.data.head? = some ' ' ∧
          (split_row [c, s, d, st]).getD 2 "" = pyStrip L ∧
          (split_row [c, s, d, st]).getD 3 "" = pyStrip R) := by
  constructor
  · intro hb1
    obtain ⟨t, ht⟩ := starter_check_true d hb1
    obtain ⟨j, hj1, hjle, hjpre, hsplit⟩ := split_row_starter c s d st t ht
    have hdd := string_data_length d
    have hlt : j - 1 < d.data.length := by omega
    refine ⟨⟨d.data.take (j - 1)⟩, ⟨d.data.drop j⟩, d.data.get ⟨j - 1, hlt⟩, ?_, ?_, ?_⟩
    · apply String.ext
      show d.data = d.data.take (j - 1) ++ [d.data.get ⟨j - 1, hlt⟩] ++ d.data.drop j
      have hsucc : j - 1 + 1 = j := by omega
      have hdrop : d.data.drop (j - 1) = d.data.get ⟨j - 1, hlt⟩ :: d.data.drop j := by
        rw [List.drop_eq_getElem_cons hlt, hsucc]
        rfl
      calc d.data = d.data.take (j - 1) ++ d.data.drop (j - 1) :=
            (List.take_append_drop (j - 1) d.data).symm
        _ = d.data.take (j - 1) ++ [d.data.get ⟨j - 1, hlt⟩] ++ d.data.drop j := by
            rw [hdrop, List.append_assoc]
            rfl
    · rw [hsplit]
      show pyStrip (pySliceTo d ((j : Int) - 1)) = pyStrip ⟨d.data.take (j - 1)⟩
      have hcast : (j : Int) - 1 = ((j - 1 : Nat) : Int) := by omega
      have hTo : pySliceTo d ((j : Int) - 1) = ⟨d.data.take (j - 1)⟩ := by
        apply String.ext
        rw [hcast]
        exact pySliceTo_data_le d (j - 1) (by omega)
      rw [hTo]
    · rw [hsplit]
      show pyStrip (pySliceFrom d (j : Int)) = pyStrip ⟨d.data.drop j⟩
      have hFrom : pySliceFrom d (j : Int) = ⟨d.data.drop j⟩ :=
        String.ext (pySliceFrom_data_le d j hjle)
      rw [hFrom]
  · intro hb1 hb2
    obtain ⟨tk, htk⟩ := end_check_true d hb2
    obtain ⟨j, hjb, hjpre, hsplit⟩ := split_row_end c s d st tk hb1 htk
    have hdd := string_data_length d
    have htt := string_data_length tk
    refine ⟨⟨d.data.take (j + tk.length)⟩, ⟨d.data.drop (j + tk.length)⟩, ?_, ?_, ?_, ?_⟩
    · apply String.ext
      show d.data = d.data.take (j + tk.length) ++ d.data.drop (j + tk.length)
      exact (List.take_append_drop (j + tk.length) d.data).symm
    · show (d.data.drop (j + tk.length)).head? = some ' '
      obtain ⟨rest, hrest⟩ := List.isPrefixOf_iff_prefix.mp hjpre
      have hdata : (tk ++ " ").data = tk.data ++ [' '] := rfl
      rw [hdata] at hrest
      have hstep : d.data.drop (j + tk.length) = (d.data.drop j).drop tk.length := by
        rw [List.drop_drop]
      rw [hstep, ← hrest]
      have : ((tk.data ++ [' ']) ++ rest).drop tk.length = ' ' :: rest := by
        rw [List.append_assoc]
        have hlen : tk.data.length = tk.length := htt
        rw [← hlen, List.drop_left]
        rfl
      rw [this]
      rfl
    · rw [hsplit]
      show pyStrip (pySliceTo d ((j : Int) + (tk.length : Int))) =
        pyStrip ⟨d.data.take (j + tk.length)⟩
      have hcast : (j : Int) + (tk.length : Int) = ((j + tk.length : Nat) : Int) := by
        omega
      have hTo : pySliceTo d ((j : Int) + (tk.length : Int)) =
          ⟨d.data.take (j + tk.length)⟩ := by
        apply String.ext
        rw [hcast]
        exact pySliceTo_data_le d (j + tk.length) (by omega)
      rw [hTo]
    · rw [hsplit]
      show pyStrip (pySliceFrom d ((j : Int) + (tk.length : Int))) =
        pyStrip ⟨d.data.drop (j + tk.length)⟩
      have hcast : (j : Int) + (tk.length : Int) = ((j + tk.length : Nat) : Int) := by
        omega
      have hFrom : pySliceFrom d ((j : Int) + (tk.length : Int)) =
          ⟨d.data.drop (j + tk.length)⟩ := by
        apply String.ext
        rw [hcast]
        exact pySliceFrom_data_le d (j + tk.length) (by omega)
      rw [hFrom]

/-- C6 (witness): the amended decomposition at the concrete starter-split
row with combined description `APPLE INC COM`. -/
theorem claim_C6_witness :
    ∃ L R : String, ∃ ch : Char,
      "APPLE INC COM" = L ++ String.singleton ch ++ R ∧
        (split_row ["C", "", "APPLE INC COM", ""]).getD 2 "" = pyStrip L ∧
        (split_row ["C", "", "APPLE INC COM", ""]).getD 3 "" = pyStrip R :=
  (claim_C6_amended_decomposition "C" "" "APPLE INC COM" "").1 (by decide)

/-- C7: `find_count` reports success exactly on lines containing the literal
substring `Total Count` (among calls that return at all); the example line
`Total Count.......21,312` parses to 21312 (last 6 characters, commas
stripped); and in the main loop the value retained is that of the last
successful count line — it overwrites whatever was accumulated before, with
no aggregation. -/
theorem claim_C7_total_count :
    (∀ el b n, find_count el = some (b, n) →
        (b = true ↔ pySubstr "Total Count" el = true)) ∧
      find_count "Total Count.......21,312" = some (true, 21312) ∧
      (∀ lines el n, count_loop lines ≠ none → find_count el = some (true, n) →
        count_loop (lines ++ [el]) = some n) := by
  refine ⟨?_, by decide, ?_⟩
  · intro el b n h
    unfold find_count at h
    by_cases hs : pySubstr "Total Count" el = true
    · rw [if_pos hs] at h
      obtain ⟨v, hv, he⟩ := Option.map_eq_some'.mp h
      have hb : b = true := by
        have := congrArg Prod.fst he
        simpa using this.symm
      exact ⟨fun _ => hs, fun _ => hb⟩
    · rw [if_neg hs] at h
      simp only [Option.some.injEq, Prod.mk.injEq] at h
      constructor
      · intro hb
        rw [← h.1] at hb
        exact absurd hb (by decide)
      · intro hb
        exact absurd hb hs
  · intro lines el n hne hf
    rcases hc : count_loop lines with _ | c
    · exact absurd hc hne
    · unfold count_loop at hc ⊢
      rw [List.foldl_append, hc]
      show count_step (some c) el = some n
      unfold count_step
      rw [hf]
      rfl

/-- C8 (counterexample): total-count extraction CAN raise an error: the line
`Total Count` itself contains the literal marker but its trailing 6-character
segment ` Count` is not numeric, so `int` raises `ValueError` (modelled by
`find_count` returning `none`) instead of leaving the count at zero. -/
theorem claim_C8_counterexample :
    pySubstr "Total Count" "Total Count" = true ∧
      find_count "Total Count" = none := by
  refine ⟨by decide, by decide⟩

/-- C8 (amended): on every line NOT containing `Total Count`, `find_count`
returns `[False, 0]` without failing, and a document none of whose lines
contains `Total Count` leaves the reported count at zero; but a line that
does contain `Total Count` with a non-numeric trailing segment raises
`ValueError` inside `int`. -/
theorem claim_C8_amended_no_error :
    (∀ el, pySubstr "Total Count" el = false → find_count el = some (false, 0)) ∧
      (∀ lines, (∀ el ∈ lines, pySubstr "Total Count" el = false) →
        count_loop lines = some 0) := by
  have h1 : ∀ el, pySubstr "Total Count" el = false →
      find_count el = some (false, 0) := by
    intro el h
    unfold find_count
    rw [if_neg (by simp [h])]
  refine ⟨h1, ?_⟩
  intro lines hall
  suffices hgen : ∀ (xs : List String), (∀ el ∈ xs, pySubstr "Total Count" el = false) →
      ∀ a : Int, xs.foldl count_step (some a) = some a by
    exact hgen lines hall 0
  intro xs
  induction xs with
  | nil =>
    intro _ a
    rfl
  | cons x xs ih =>
    intro hall2 a
    rw [List.foldl_cons]
    have hx := h1 x (hall2 x (List.mem_cons_self x xs))
    have hstep : count_step (some a) x = some a := by
      unfold count_step
      rw [hx]
      rfl
    rw [hstep]
    exact ih (fun el he => hall2 el (List.mem_cons_of_mem x he)) a

/-- C8 (witness): a line without the marker is handled without error. -/
theorem claim_C8_witness :
    pySubstr "Total Count" "UNITED STATES" = false ∧
      find_count "UNITED STATES" = some (false, 0) :=
  ⟨by decide, claim_C8_amended_no_error.1 "UNITED STATES" (by decide)⟩

/-- C7 (witness): with an ordinary line first, the count retained after the
final `Total Count.......21,312` line is 21312. -/
theorem claim_C7_witness :
    count_loop (["CUSIP NO  ISSUER DESCRIPTION"] ++ ["Total Count.......21,312"]) =
      some 21312 :=
  claim_C7_total_count.2.2 ["CUSIP NO  ISSUER DESCRIPTION"]
    "Total Count.......21,312" 21312 (by decide) (by decide)

/-- C9: for every line matching the record pattern, if the line has at least
13 characters then the star-check lookahead `el[12]` is in bounds and
classification succeeds with a row; if the line is shorter (11 or 12
characters), the lookahead runs past the string end and classification
fails with an unhandled out-of-bounds access (`none`). -/
theorem claim_C9_star_lookahead (el : String) (h : match_CUSIP el = true) :
    (13 ≤ el.length → ∃ r, categorize_col_contents el = some (some r)) ∧
      (el.length < 13 → categorize_col_contents el = none) := by
  constructor
  · intro hlen
    obtain ⟨star, des, _, _, heq⟩ := categorize_eq el h hlen
    exact ⟨_, heq⟩
  · intro hlen
    exact categorize_crash el h hlen

/-- C9 (witness): a long matching line classifies successfully; the bare
11-character CUSIP line `A12345 67 8` matches the pattern but crashes. -/
theorem claim_C9_witness :
    (∃ r, categorize_col_contents "B98765 43 2 INTEL CORP COM ADDED" =
        some (some r)) ∧
      categorize_col_contents "A12345 67 8" = none := by
  constructor
  · exact (claim_C9_star_lookahead "B98765 43 2 INTEL CORP COM ADDED" (by decide)).1
      (by decide)
  · exact (claim_C9_star_lookahead "A12345 67 8" (by decide)).2 (by decide)

theorem categorize_some_inv (el : String) (r : List String)
    (h : categorize_col_contents el = some (some r)) :
    match_CUSIP el = true ∧
      ∃ star des, r = [add_CUSIP el, star, des, add_status el] := by
  by_cases hm : match_CUSIP el = true
  · refine ⟨hm, ?_⟩
    unfold categorize_col_contents at h
    rw [if_pos hm] at h
    rcases hs : add_star el with _ | star <;> rw [hs] at h
    · rcases add_description el with _ | des <;> simp at h
    · rcases hd : add_description el with _ | des <;> rw [hd] at h
      · simp at h
      · simp only [Option.some.injEq] at h
        exact ⟨star, des, h.symm⟩
  · unfold categorize_col_contents at h
    rw [if_neg hm] at h
    simp at h

theorem split_row_head (a b dd ee : String) :
    (split_row [a, b, dd, ee]).getD 0 "" = a := by
  by_cases h1 : (starter_check dd).1 = true
  · obtain ⟨t, ht⟩ := starter_check_true dd h1
    obtain ⟨j, _, _, _, hsplit⟩ := split_row_starter a b dd ee t ht
    rw [hsplit]
    rfl
  · have h1' : (starter_check dd).1 = false := by simpa using h1
    by_cases h2 : (end_check dd).1 = true
    · obtain ⟨tk, htk⟩ := end_check_true dd h2
      obtain ⟨j, _, _, hsplit⟩ := split_row_end a b dd ee tk h1' htk
      rw [hsplit]
      rfl
    · have h2' : (end_check dd).1 = false := by simpa using h2
      rw [split_row_fallback a b dd ee h1' h2']
      rfl

theorem getD_take_lt (l : List Char) (n k : Nat) (dflt : Char) (h : k < n) :
    (l.take n).getD k dflt = l.getD k dflt := by
  simp [List.getD_eq_getElem?_getD, List.getElem?_take_of_lt h]

/-- C10: for every row written to the output table, the CUSIP field is
exactly the 11-character prefix of the source line spanned by the pattern
match: an 11-character string whose position 1 is a digit and whose
positions 6 and 9 are (internal) whitespace — not a bare 9-character
token. -/
theorem claim_C10_cusip_span (el : String) (r : List String)
    (h : classify_then_split el = some (some r)) :
    r.getD 0 "" = pySliceTo el 11 ∧ (r.getD 0 "").length = 11 ∧
      isPyDigit ((r.getD 0 "").data.getD 1 ' ') = true ∧
      isPySpace ((r.getD 0 "").data.getD 6 'x') = true ∧
      isPySpace ((r.getD 0 "").data.getD 9 'x') = true := by
  unfold classify_then_split at h
  rcases hcat : categorize_col_contents el with _ | o <;> rw [hcat] at h
  · simp at h
  · rcases o with _ | r0
    · simp at h
    · have hsr : split_row r0 = r := by simpa using h
      obtain ⟨hm, star, des, hr0⟩ := categorize_some_inv el r0 hcat
      subst hr0
      have hhead : r.getD 0 "" = add_CUSIP el := by
        rw [← hsr]
        exact split_row_head (add_CUSIP el) star des (add_status el)
      obtain ⟨h11, hdig, hsp6, hsp9⟩ := match_CUSIP_fields el hm
      have hdd := string_data_length el
      have hdata : (add_CUSIP el).data = el.data.take 11 := by
        unfold add_CUSIP pySlice
        have e0 : (0 : Int) = ((0 : Nat) : Int) := rfl
        have e11 : (11 : Int) = ((11 : Nat) : Int) := rfl
        rw [e0, e11, pyIdx_ofNat, pyIdx_ofNat]
        rw [Nat.min_eq_left (Nat.zero_le _), Nat.min_eq_left h11]
        simp
      refine ⟨?_, ?_, ?_, ?_, ?_⟩
      · rw [hhead]
        apply String.ext
        rw [hdata]
        have hto := pySliceTo_data_le el 11 h11
        have e11 : (11 : Int) = ((11 : Nat) : Int) := rfl
        rw [e11, hto]
      · rw [hhead, ← string_data_length, hdata, List.length_take,
          Nat.min_eq_left (by omega)]
      · rw [hhead, hdata, getD_take_lt el.data 11 1 ' ' (by omega)]
        exact hdig
      · rw [hhead, hdata, getD_take_lt el.data 11 6 'x' (by omega)]
        exact hsp6
      · rw [hhead, hdata, getD_take_lt el.data 11 9 'x' (by omega)]
        exact hsp9

/-- C10 (witness): the pipeline row for `C11111 22 3 FOO COM` carries the
11-character spaced CUSIP `C11111 22 3`. -/
theorem claim_C10_witness :
    (["C11111 22 3", "", "FOO", "COM", ""].getD 0 "").length = 11 :=
  (claim_C10_cusip_span "C11111 22 3 FOO COM" ["C11111 22 3", "", "FOO", "COM", ""]
    (by decide)).2.1

/-- C2 (witness): the amended span property at the concrete accepted line
`A99999 88 7 ACME CORP COM`. -/
theorem claim_C2_witness :
    ["A99999 88 7", "", "ACME CORP COM", ""].getD 0 "" =
        pySliceTo "A99999 88 7 ACME CORP COM" 11 ∧
      (["A99999 88 7", "", "ACME CORP COM", ""].getD 0 "").length = 11 :=
  claim_C2_amended_span "A99999 88 7 ACME CORP COM"
    ["A99999 88 7", "", "ACME CORP COM", ""] (by decide)

/-- C3 (witness): the non-empty-issue invariant at the fallback row with
combined description `ZZZ QQQ`. -/
theorem claim_C3_witness :
    pyStrip "ZZZ QQQ" = "ZZZ QQQ" ∧
      (split_row ["C", "", "ZZZ QQQ", ""]).getD 3 "" ≠ "" :=
  ⟨by decide, (claim_C3_issue_nonempty "C" "" "ZZZ QQQ" "" (by decide)).1⟩

/-- C4 (witness): on `GAZPROM SPONS ADR` no starter earlier than
`SPONS ADR` occurs, and the scan selects `SPONS ADR`. -/
theorem claim_C4_witness :
    starter_check "GAZPROM SPONS ADR" = (true, some "SPONS ADR") :=
  claim_C4_amended_first_match.2.2 "GAZPROM SPONS ADR" (by decide) (by decide)

end ThirteenF
